import Mathlib

/-!
Verification of the subscription/combination engine of WatermelonDB's React
bindings (`useObservables` and `WithObservablesComponent`).

The development shallowly embeds three pieces of the source:

* the source adapter `subscribe(value, onNext, onError, onComplete)`
  (useObservables, lines 16-47), including its duck-typed shape dispatch;
* the trigger-prop generation tracker (`getTriggeringProps`, the
  `identicalArrays` comparison and the ref/useMemo/useEffect chain,
  lines 58-66 and 108-133);
* the per-generation combination engine: the `useEffect` body that opens one
  subscription per key of the observables object, accumulates first emissions,
  and publishes `{isLoading, data, error}` (lines 135-196).

The engine is modelled as a state machine: `initGenState` is the state right
after the effect body ran (before any emission is delivered), and `step`
applies one callback invocation (`onNext`, `onError`, `onComplete`,
or teardown/`unsubscribeAll`).  `Reach` is the set of states reachable within
one generation.  JavaScript objects used as value maps are modelled as
association lists keyed by strings; machine data held in observables is a type
parameter `α`, errors a type parameter `ε`.
-/

namespace WatermelonReact

/-- A JavaScript value passed to `subscribe` as a source.  `nullish` covers
`null` (`isUndefined = false`) and `undefined` (`isUndefined = true`) — both
are falsy and property access on them throws a `TypeError`.  `obj` covers
every other value, described by the three features `subscribe` inspects:
`value.constructor._wmelonTag` (absent constructor or tag collapses to
`none`), whether `typeof value.observe === 'function'` and whether
`typeof value.subscribe === 'function'`. -/
inductive JSVal where
  | nullish (isUndefined : Bool)
  | obj (wmelonTag : Option String) (hasObserve : Bool) (hasSubscribe : Bool)
deriving DecidableEq

/-- The two ways `subscribe` can throw synchronously: a `TypeError` raised by
the runtime when a property of `null`/`undefined` is accessed, or the explicit
`throw new Error('[useObservables] Value passed doesn't appear to be
observable...')` of the final branch (the SourceProtocolError of the spec). -/
inductive JSErr where
  | typeError
  | protocolError
deriving DecidableEq

/-- A callback invocation performed by the adapter itself, synchronously,
before `subscribe` returns. -/
inductive JsCall where
  | next (value : JSVal)
  | complete
deriving DecidableEq

/-- Which branch of `subscribe`'s dispatch was taken. -/
inductive Branch where
  | model
  | query
  | observe
  | subscribeMethod
deriving DecidableEq

/-- `const wmelonTag = value && value.constructor && value.constructor._wmelonTag`:
for a nullish (falsy) value the conjunction short-circuits to the nullish value
itself, which is not a tag string, hence `none`. -/
def wmelonTagOf : JSVal → Option String
  | .nullish _ => none
  | .obj tag _ _ => tag

/-- `typeof value.observe === 'function'`.  Accessing `.observe` on
`null`/`undefined` throws a `TypeError`. -/
def typeofObserveIsFunction : JSVal → Except JSErr Bool
  | .nullish _ => .error .typeError
  | .obj _ hasObs _ => .ok hasObs

/-- `typeof value.subscribe === 'function'`.  Accessing `.subscribe` on
`null`/`undefined` throws a `TypeError`. -/
def typeofSubscribeIsFunction : JSVal → Except JSErr Bool
  | .nullish _ => .error .typeError
  | .obj _ _ hasSub => .ok hasSub

/-- The dispatch of `subscribe(value, onNext, onError, onComplete)`
(useObservables lines 16-47), returning which branch was taken together with
the callback invocations the adapter performs synchronously before returning,
or the error thrown synchronously.  The model branch emits `value` once via
`onNext` before attaching to `experimentalSubscribe`; the query, observe and
subscribe branches make no calls of their own (any synchronous emission there
comes from the underlying producer, not from the adapter). -/
def subscribe (value : JSVal) : Except JSErr (Branch × List JsCall) :=
  let wmelonTag := wmelonTagOf value
  if wmelonTag = some "model" then
    .ok (.model, [.next value])
  else if wmelonTag = some "query" then
    .ok (.query, [])
  else
    match typeofObserveIsFunction value with
    | .error e => .error e
    | .ok true => .ok (.observe, [])
    | .ok false =>
      match typeofSubscribeIsFunction value with
      | .error e => .error e
      | .ok true => .ok (.subscribeMethod, [])
      | .ok false => .error .protocolError

/-- The change-notification handler installed by the model branch:
`(isDeleted) => { if (isDeleted) { onComplete() } else { onNext(value) } }`
(useObservables lines 25-30). -/
def modelChangeHandler (value : JSVal) (isDeleted : Bool) : JsCall :=
  if isDeleted then .complete else .next value

/-- Modelled from the spec: `identicalArrays`, imported by the source from
`../utils/fp/identicalArrays` but not present under `src/`.  Spec section 4.2:
two key-lists are the same generation iff they have equal length and every
positional element is identical (JavaScript identity, modelled here as
decidable equality on the element type), not a deep comparison. -/
def identicalArrays {α : Type} [DecidableEq α] (left right : List α) : Bool :=
  left.length == right.length && (List.zip left right).all fun p => p.1 == p.2

/-- `getTriggeringProps(props, propNames)` (useObservables lines 58-66):
`null` prop names yield the empty list, otherwise the watched props' current
values in order.  Props are modelled as a total map from names to values. -/
def getTriggeringProps {α : Type} (props : String → α) (propNames : Option (List String)) :
    List α :=
  match propNames with
  | none => []
  | some names => names.map fun name => props name

/-- Outcome of one evaluation (render) of the hook with respect to generation
tracking: the new value of `prevTriggerPropsRef` and whether the generation
was replaced (subscriptions torn down and fresh ones opened). -/
structure EvalOutcome (α : Type) where
  newRef : List α
  resubscribed : Bool
deriving DecidableEq

/-- One evaluation of the generation-tracking logic (useObservables lines
108-133): recompute the current trigger props, compare them to the ref with
`identicalArrays`, and replace the ref on change.  The `useMemo` keyed on the
ref value recomputes `observablesObject` exactly when the ref was replaced,
and the `useEffect` keyed on `observablesObject` then tears down the previous
generation's subscriptions and opens fresh ones; so `resubscribed` equals the
comparison outcome. -/
def evalGeneration {α : Type} [DecidableEq α] (prevRef : List α)
    (props : String → α) (propNames : Option (List String)) : EvalOutcome α :=
  let currentTriggerProps := getTriggeringProps props propNames
  let triggerPropsChanged := !identicalArrays prevRef currentTriggerProps
  { newRef := if triggerPropsChanged then currentTriggerProps else prevRef,
    resubscribed := triggerPropsChanged }

/-- The resubscription decisions over a sequence of successive evaluations,
threading the ref through. -/
def evalTrace {α : Type} [DecidableEq α] (propNames : Option (List String)) :
    List α → List (String → α) → List Bool
  | _, [] => []
  | prevRef, props :: rest =>
    let o := evalGeneration prevRef props propNames
    o.resubscribed :: evalTrace propNames o.newRef rest

/-- The published combined state `{isLoading, data, error}`.  `data` is the
snapshot object passed to `setState` (an association list keyed by the
observables object's keys), `error` the error value if any. -/
structure CombinedState (ε α : Type) where
  isLoading : Bool
  data : Option (List (String × α))
  error : Option ε
deriving DecidableEq

/-- The mutable state of one generation of the combination engine
(the closure state of the `useEffect` body, useObservables lines 135-196):
the liveness flag `isSubscribed`, the list of open unsubscribe handles (one
per key passed to the adapter's `subscribe`), the handles already invoked,
the `values` accumulator, the `valueCount` of keys having emitted at least
once, and the last state published via `setState`. -/
structure GenState (ε α : Type) where
  isSubscribed : Bool
  subscriptions : List String
  canceled : List String
  values : List (String × α)
  valueCount : Nat
  published : CombinedState ε α
deriving DecidableEq

/-- `Object.prototype.hasOwnProperty.call(values, key)` on the accumulator
object modelled as an association list (useObservables lines 49-56). -/
def hasOwn {α : Type} (values : List (String × α)) (key : String) : Bool :=
  values.any fun entry => entry.1 == key

/-- `values[key] = value` on an association list: replace in place if the key
is present (JavaScript objects keep the key's original insertion position),
append otherwise. -/
def setValue {α : Type} (key : String) (value : α) : List (String × α) → List (String × α)
  | [] => [(key, value)]
  | entry :: rest =>
    if entry.1 = key then (key, value) :: rest else entry :: setValue key value rest

/-- The state right after the `useEffect` body ran for a generation whose
observables object has the given (duplicate-free) key list: the liveness flag
is set, `setState({isLoading: true, data: null, error: null})` was called, and
then either the empty-map branch published
`{isLoading: false, data: {}, error: null}` without calling the adapter at
all, or one subscription per key was opened (`subscriptions` records the keys
for which the adapter's `subscribe` was invoked).  Emissions delivered during
the synchronous subscription loop are modelled as ordinary events applied by
`step` after this state. -/
def initGenState (ε α : Type) (keys : List String) : GenState ε α :=
  if keys.length = 0 then
    { isSubscribed := true, subscriptions := [], canceled := [],
      values := [], valueCount := 0,
      published := { isLoading := false, data := some [], error := none } }
  else
    { isSubscribed := true, subscriptions := keys, canceled := [],
      values := [], valueCount := 0,
      published := { isLoading := true, data := none, error := none } }

/-- One callback invocation delivered to the generation's closures: an
`onNext` under some key, an `onError` from some source, an `onComplete` under
some key, or a teardown (the effect cleanup, which is also what generation
replacement runs before the next generation starts). -/
inductive Ev (ε α : Type) where
  | next (key : String) (value : α)
  | error (e : ε)
  | complete (key : String)
  | teardown
deriving DecidableEq

/-- `unsubscribeAll` (useObservables lines 153-157): clear the liveness flag,
invoke every open unsubscribe handle, empty the handle list. -/
def unsubscribeAll {ε α : Type} (s : GenState ε α) : GenState ε α :=
  { s with isSubscribed := false,
           canceled := s.canceled ++ s.subscriptions,
           subscriptions := [] }

/-- The `onNext` closure for a key (useObservables lines 167-180): ignore the
emission if the generation is no longer live; otherwise count a first emission
for the key, store the value, and when every key has emitted publish
`{isLoading: false, data: {...values}, error: null}` (a snapshot of the
accumulator). -/
def onNext {ε α : Type} (keys : List String) (key : String) (value : α)
    (s : GenState ε α) : GenState ε α :=
  if s.isSubscribed = false then s
  else
    let isFirstEmission := !hasOwn s.values key
    let valueCount := if isFirstEmission then s.valueCount + 1 else s.valueCount
    let values := setValue key value s.values
    let published :=
      if valueCount = keys.length then
        { isLoading := false, data := some values, error := none }
      else s.published
    { s with values := values, valueCount := valueCount, published := published }

/-- The `onError` closure (useObservables lines 181-185): ignore if no longer
live; otherwise run `unsubscribeAll` and publish
`{isLoading: false, data: null, error}`. -/
def onError {ε α : Type} (e : ε) (s : GenState ε α) : GenState ε α :=
  if s.isSubscribed = false then s
  else
    let s' := unsubscribeAll s
    { s' with published := { isLoading := false, data := none, error := some e } }

/-- Apply one callback invocation to the generation state.  The `onComplete`
closure is `() => {}` (useObservables lines 186-188) and changes nothing;
teardown runs `unsubscribeAll` (the effect cleanup, line 193). -/
def step {ε α : Type} (keys : List String) (s : GenState ε α) : Ev ε α → GenState ε α
  | .next key value => onNext keys key value s
  | .error e => onError e s
  | .complete _ => s
  | .teardown => unsubscribeAll s

/-- Valid events of a generation: `onNext`/`onComplete` callbacks exist only
for keys of the observables object (one subscription per key); errors and
teardown can arrive at any time, including after cancellation (an underlying
asynchronous producer may not yet have physically detached). -/
def EvValid {ε α : Type} (keys : List String) : Ev ε α → Prop
  | .next key _ => key ∈ keys
  | .complete key => key ∈ keys
  | .error _ => True
  | .teardown => True

/-- The events whose callbacks carry data: `onNext` and `onError`
invocations. -/
def isEmission {ε α : Type} : Ev ε α → Bool
  | .next _ _ => true
  | .error _ => true
  | _ => false

/-- States reachable within one generation: the post-effect initial state,
closed under valid events. -/
inductive Reach (ε α : Type) (keys : List String) : GenState ε α → Prop where
  | init : Reach ε α keys (initGenState ε α keys)
  | tail {s : GenState ε α} {ev : Ev ε α} :
      Reach ε α keys s → EvValid keys ev → Reach ε α keys (step keys s ev)

/-- Run a list of events in order. -/
def run {ε α : Type} (keys : List String) (s : GenState ε α) (evs : List (Ev ε α)) :
    GenState ε α :=
  evs.foldl (step keys) s

/-- The key list of an accumulator / snapshot object. -/
def valuesKeys {α : Type} (values : List (String × α)) : List String :=
  values.map Prod.fst

/-- The inductive invariant of a generation's state (for a duplicate-free key
list): the accumulator holds at most one entry per key of the observables
object, `valueCount` counts them, a dead generation holds no open handles,
and the published state is one of the three well-formed shapes, with a
published snapshot equal to the accumulator and complete exactly when every
key has emitted. -/
structure Inv {ε α : Type} (keys : List String) (s : GenState ε α) : Prop where
  keys_sub : ∀ k ∈ valuesKeys s.values, k ∈ keys
  keys_nodup : (valuesKeys s.values).Nodup
  count_eq : s.valueCount = s.values.length
  dead_subs : s.isSubscribed = false → s.subscriptions = []
  loading_shape : s.published.isLoading = true →
    s.published.data = none ∧ s.published.error = none
  error_shape : ∀ e, s.published.error = some e →
    s.published.isLoading = false ∧ s.published.data = none ∧ s.isSubscribed = false
  ready_shape : ∀ d, s.published.data = some d →
    s.published.isLoading = false ∧ s.published.error = none ∧
    d = s.values ∧ s.valueCount = keys.length
  some_status : s.published.isLoading = false →
    s.published.data ≠ none ∨ s.published.error ≠ none
  full_not_loading : s.valueCount = keys.length → s.published.isLoading = false

/-- A one-key generation whose single source fires its error channel before
ever emitting a value (the repository's own test 'handles errors and sets
error state' exercises exactly this). -/
def c2ErrorState : GenState Nat Nat :=
  step ["a"] (initGenState Nat Nat ["a"]) (.error 0)

theorem identicalArrays_eq_true_iff {α : Type} [DecidableEq α] (l r : List α) :
    identicalArrays l r = true ↔ l = r := by
  induction l generalizing r with
  | nil => cases r <;> simp [identicalArrays]
  | cons a l ih =>
    cases r with
    | nil => simp [identicalArrays]
    | cons b r =>
      have h := ih r
      simp only [identicalArrays, List.length_cons, List.zip_cons_cons, List.all_cons,
        Bool.and_eq_true, beq_iff_eq] at h ⊢
      constructor
      · rintro ⟨hlen, hab, hall⟩
        rw [hab, h.mp ⟨by omega, hall⟩]
      · intro heq
        injection heq with hab hlr
        subst hab
        subst hlr
        exact ⟨by omega, rfl, (h.mpr rfl).2⟩

/-- C5: the adapter resolves the source's shape in the fixed order — record
(model) tag first, then query tag, then a zero-argument observe() conversion
method, then a subscribe() push method — with first match winning; if no shape
matches, it fails synchronously by throwing (the returned `Except` is an
error; no callback, in particular no onError, is invoked). -/
theorem subscribe_resolution_order :
    (∀ hasObs hasSub, subscribe (.obj (some "model") hasObs hasSub) =
      .ok (.model, [.next (.obj (some "model") hasObs hasSub)])) ∧
    (∀ hasObs hasSub, subscribe (.obj (some "query") hasObs hasSub) =
      .ok (.query, [])) ∧
    (∀ tag hasSub, tag ≠ some "model" → tag ≠ some "query" →
      subscribe (.obj tag true hasSub) = .ok (.observe, [])) ∧
    (∀ tag, tag ≠ some "model" → tag ≠ some "query" →
      subscribe (.obj tag false true) = .ok (.subscribeMethod, [])) ∧
    (∀ tag, tag ≠ some "model" → tag ≠ some "query" →
      subscribe (.obj tag false false) = .error .protocolError) ∧
    (∀ u, subscribe (.nullish u) = .error .typeError) := by
  refine ⟨fun hasObs hasSub => ?_, fun hasObs hasSub => ?_, fun tag hasSub h1 h2 => ?_,
    fun tag h1 h2 => ?_, fun tag h1 h2 => ?_, fun u => ?_⟩ <;>
    simp [subscribe, wmelonTagOf, typeofObserveIsFunction, typeofSubscribeIsFunction, *]

theorem subscribe_resolution_order_witness :
    subscribe (.obj (some "x") true true) = .ok (.observe, []) :=
  subscribe_resolution_order.2.2.1 (some "x") true (by decide) (by decide)

/-- C6: for a source carrying the record (model) protocol tag, `subscribe`
invokes `onNext(source)` exactly once synchronously before returning, and the
change-notification handler it installs re-emits the source on a "not
deleted" notification and invokes `onComplete` on a "deleted" one. -/
theorem subscribe_model_emits_once_then_tracks_changes :
    (∀ hasObs hasSub, subscribe (.obj (some "model") hasObs hasSub) =
      .ok (.model, [.next (.obj (some "model") hasObs hasSub)])) ∧
    (∀ value, modelChangeHandler value false = .next value) ∧
    (∀ value, modelChangeHandler value true = .complete) := by
  refine ⟨fun hasObs hasSub => ?_, fun value => ?_, fun value => ?_⟩ <;>
    simp [subscribe, wmelonTagOf, modelChangeHandler]

theorem subscribe_model_emits_once_then_tracks_changes_witness :
    subscribe (.obj (some "model") true false) =
      .ok (.model, [.next (.obj (some "model") true false)]) :=
  subscribe_model_emits_once_then_tracks_changes.1 true false

/-- C10: for a null or undefined source, `subscribe` fails synchronously with
a TypeError (raised by the `typeof value.observe` property access) before any
callback is invoked; the designated unrecognized-shape (SourceProtocolError)
branch is never reached for nullish inputs, and the two failures are
distinct. -/
theorem subscribe_nullish_throws_type_error :
    (∀ u, subscribe (.nullish u) = .error .typeError) ∧
    JSErr.typeError ≠ JSErr.protocolError := by
  exact ⟨fun u => by simp [subscribe, wmelonTagOf, typeofObserveIsFunction], by decide⟩

theorem subscribe_nullish_throws_type_error_witness :
    subscribe (.nullish false) = .error .typeError :=
  subscribe_nullish_throws_type_error.1 false

/-- C7: across successive evaluations, the engine resubscribes iff the ordered
list of watched input values differs from the previous evaluation's list in
length or in some positional element under identity comparison; with a null
watch-list no resubscription ever occurs after the first generation; and
changing an unwatched input never closes or reopens subscriptions. -/
theorem resubscribe_iff_trigger_props_not_identical {α : Type} [DecidableEq α] :
    (∀ (prevRef : List α) (props : String → α) (propNames : Option (List String)),
      (evalGeneration prevRef props propNames).resubscribed = true ↔
        ¬(prevRef.length = (getTriggeringProps props propNames).length ∧
          ∀ (i : Nat) (h1 : i < prevRef.length)
            (h2 : i < (getTriggeringProps props propNames).length),
            prevRef.get ⟨i, h1⟩ = (getTriggeringProps props propNames).get ⟨i, h2⟩)) ∧
    (∀ (props0 : String → α) (rest : List (String → α)),
      evalTrace none (getTriggeringProps props0 none) rest = rest.map fun _ => false) ∧
    (∀ (prevRef : List α) (props props' : String → α) (names : List String),
      prevRef = getTriggeringProps props (some names) →
      (∀ n ∈ names, props' n = props n) →
      (evalGeneration prevRef props' (some names)).resubscribed = false) := by
  refine ⟨fun prevRef props propNames => ?_, fun props0 rest => ?_,
    fun prevRef props props' names href hagree => ?_⟩
  · rw [← List.ext_get_iff]
    simp only [evalGeneration, Bool.not_eq_true', ← identicalArrays_eq_true_iff prevRef
      (getTriggeringProps props propNames)]
    cases identicalArrays prevRef (getTriggeringProps props propNames) <;> simp
  · induction rest with
    | nil => rfl
    | cons p ps ih =>
      have hstep : evalGeneration (getTriggeringProps props0 none) p (none : Option (List String))
          = { newRef := getTriggeringProps props0 none, resubscribed := false } := by
        simp [evalGeneration, getTriggeringProps, identicalArrays]
      simp [evalTrace, hstep, ih]
  · have hcur : getTriggeringProps props' (some names) = prevRef := by
      rw [href]
      simp only [getTriggeringProps]
      exact List.map_congr_left hagree
    simp [evalGeneration, hcur, (identicalArrays_eq_true_iff prevRef prevRef).mpr rfl]

theorem resubscribe_iff_trigger_props_not_identical_witness :
    (evalGeneration ([1] : List Nat)
      (fun n => if n = "id" then 1 else 2) (some ["id"])).resubscribed = false :=
  resubscribe_iff_trigger_props_not_identical.2.2 [1] (fun _ => 1)
    (fun n => if n = "id" then 1 else 2) ["id"] rfl (by decide)

@[simp]
theorem valuesKeys_nil {α : Type} : valuesKeys ([] : List (String × α)) = [] := rfl

@[simp]
theorem valuesKeys_cons {α : Type} (e : String × α) (m : List (String × α)) :
    valuesKeys (e :: m) = e.1 :: valuesKeys m := rfl

theorem hasOwn_eq_true_iff {α : Type} (m : List (String × α)) (k : String) :
    hasOwn m k = true ↔ k ∈ valuesKeys m := by
  simp only [hasOwn, valuesKeys, List.any_eq_true, List.mem_map, beq_iff_eq]

theorem valuesKeys_setValue_of_mem {α : Type} (k : String) (v : α) (m : List (String × α))
    (h : k ∈ valuesKeys m) : valuesKeys (setValue k v m) = valuesKeys m := by
  induction m with
  | nil => simp at h
  | cons e rest ih =>
    by_cases hek : e.1 = k
    · simp [setValue, hek]
    · have h' : k ∈ valuesKeys rest := by
        rcases (by simpa using h : k = e.1 ∨ k ∈ valuesKeys rest) with h | h
        · exact absurd h.symm hek
        · exact h
      simp [setValue, hek, ih h']

theorem valuesKeys_setValue_of_not_mem {α : Type} (k : String) (v : α) (m : List (String × α))
    (h : ¬k ∈ valuesKeys m) : valuesKeys (setValue k v m) = valuesKeys m ++ [k] := by
  induction m with
  | nil => simp [setValue]
  | cons e rest ih =>
    have hek : e.1 ≠ k := fun hc => h (by simp [hc])
    have h' : ¬k ∈ valuesKeys rest := fun hc => h (by simp [hc])
    simp [setValue, hek, ih h']

theorem length_setValue_of_mem {α : Type} (k : String) (v : α) (m : List (String × α))
    (h : k ∈ valuesKeys m) : (setValue k v m).length = m.length := by
  have := valuesKeys_setValue_of_mem k v m h
  have h1 : (valuesKeys (setValue k v m)).length = (valuesKeys m).length := by rw [this]
  simpa [valuesKeys] using h1

theorem length_setValue_of_not_mem {α : Type} (k : String) (v : α) (m : List (String × α))
    (h : ¬k ∈ valuesKeys m) : (setValue k v m).length = m.length + 1 := by
  have := valuesKeys_setValue_of_not_mem k v m h
  have h1 : (valuesKeys (setValue k v m)).length = (valuesKeys m).length + 1 := by
    rw [this]; simp
  simpa [valuesKeys] using h1

theorem lookup_setValue_self {α : Type} (k : String) (v : α) (m : List (String × α)) :
    List.lookup k (setValue k v m) = some v := by
  induction m with
  | nil => simp [setValue, List.lookup]
  | cons e rest ih =>
    by_cases hek : e.1 = k
    · simp [setValue, hek, List.lookup]
    · have hke : (k == e.1) = false := beq_eq_false_iff_ne.mpr fun hc => hek hc.symm
      simp [setValue, hek, List.lookup, hke, ih]

theorem lookup_setValue_ne {α : Type} (j k : String) (v : α) (m : List (String × α))
    (h : j ≠ k) : List.lookup j (setValue k v m) = List.lookup j m := by
  have hjk : (j == k) = false := beq_eq_false_iff_ne.mpr h
  induction m with
  | nil => simp [setValue, List.lookup, hjk]
  | cons e rest ih =>
    by_cases hek : e.1 = k
    · subst hek
      have hje : (j == e.1) = false := beq_eq_false_iff_ne.mpr h
      simp [setValue, List.lookup, hje]
    · cases hje : (j == e.1) <;> simp [setValue, hek, List.lookup, hje, ih]

theorem onNext_dead {ε α : Type} (keys : List String) (k : String) (v : α)
    (s : GenState ε α) (h : s.isSubscribed = false) : onNext keys k v s = s := by
  simp [onNext, h]

theorem onError_dead {ε α : Type} (e : ε) (s : GenState ε α)
    (h : s.isSubscribed = false) : onError e s = s := by
  simp [onError, h]

theorem run_dead {ε α : Type} (keys : List String) (s : GenState ε α)
    (h : s.isSubscribed = false) (evs : List (Ev ε α))
    (hevs : ∀ ev ∈ evs, isEmission ev = true) : run keys s evs = s := by
  revert hevs
  induction evs with
  | nil => intro _; rfl
  | cons ev rest ih =>
    intro hevs
    have hev := hevs ev (List.mem_cons_self ev rest)
    have h1 : step keys s ev = s := by
      cases ev with
      | next k v => exact onNext_dead keys k v s h
      | error e => exact onError_dead e s h
      | complete k => rfl
      | teardown => simp [isEmission] at hev
    show run keys (step keys s ev) rest = s
    rw [h1]
    exact ih fun e he => hevs e (List.mem_cons_of_mem _ he)

theorem onError_live {ε α : Type} (e : ε) (s : GenState ε α) (h : s.isSubscribed = true) :
    onError e s =
      { isSubscribed := false, subscriptions := [],
        canceled := s.canceled ++ s.subscriptions,
        values := s.values, valueCount := s.valueCount,
        published := { isLoading := false, data := none, error := some e } } := by
  simp [onError, unsubscribeAll, h]

theorem onNext_live_already {ε α : Type} (keys : List String) (k : String) (v : α)
    (s : GenState ε α) (h : s.isSubscribed = true) (hown : hasOwn s.values k = true) :
    onNext keys k v s =
      { s with
        values := setValue k v s.values,
        published :=
          if s.valueCount = keys.length then
            { isLoading := false, data := some (setValue k v s.values), error := none }
          else s.published } := by
  simp [onNext, h, hown]

theorem onNext_live_first {ε α : Type} (keys : List String) (k : String) (v : α)
    (s : GenState ε α) (h : s.isSubscribed = true) (hown : hasOwn s.values k = false) :
    onNext keys k v s =
      { s with
        values := setValue k v s.values,
        valueCount := s.valueCount + 1,
        published :=
          if s.valueCount + 1 = keys.length then
            { isLoading := false, data := some (setValue k v s.values), error := none }
          else s.published } := by
  simp [onNext, h, hown]

theorem values_length_le {ε α : Type} {keys : List String} {s : GenState ε α}
    (inv : Inv keys s) : s.values.length ≤ keys.length := by
  have hsp : List.Subperm (valuesKeys s.values) keys :=
    List.subperm_of_subset inv.keys_nodup fun a ha => inv.keys_sub a ha
  have hlen := hsp.length_le
  simpa [valuesKeys] using hlen

theorem full_values_complete {α : Type} {keys : List String} {m : List (String × α)}
    (hsub : ∀ x ∈ valuesKeys m, x ∈ keys) (hndm : (valuesKeys m).Nodup)
    (hlen : m.length = keys.length) {k : String} (hk : k ∈ keys) :
    k ∈ valuesKeys m := by
  have hsp : List.Subperm (valuesKeys m) keys :=
    List.subperm_of_subset hndm fun a ha => hsub a ha
  have hlen2 : keys.length ≤ (valuesKeys m).length := by
    simp [valuesKeys, hlen]
  exact (hsp.perm_of_length_le hlen2).mem_iff.mpr hk

theorem inv_init {ε α : Type} (keys : List String) : Inv keys (initGenState ε α keys) := by
  by_cases h : keys.length = 0
  · have hk : keys = [] := List.length_eq_zero.mp h
    subst hk
    refine ⟨?_, ?_, ?_, ?_, ?_, ?_, ?_, ?_, ?_⟩ <;> simp [initGenState]
  · refine ⟨?_, ?_, ?_, ?_, ?_, ?_, ?_, ?_, ?_⟩ <;> simp [initGenState, h]
    omega

theorem inv_step {ε α : Type} {keys : List String} {s : GenState ε α}
    (inv : Inv keys s) {ev : Ev ε α} (hev : EvValid keys ev) :
    Inv keys (step keys s ev) := by
  cases ev with
  | complete k => exact inv
  | teardown =>
    exact ⟨inv.keys_sub, inv.keys_nodup, inv.count_eq, fun _ => rfl, inv.loading_shape,
      fun e he => ⟨(inv.error_shape e he).1, (inv.error_shape e he).2.1, rfl⟩,
      fun d hd => inv.ready_shape d hd, inv.some_status, inv.full_not_loading⟩
  | error e =>
    show Inv keys (onError e s)
    cases hsub : s.isSubscribed with
    | false =>
      rw [onError_dead e s hsub]
      exact inv
    | true =>
      rw [onError_live e s hsub]
      refine ⟨inv.keys_sub, inv.keys_nodup, inv.count_eq, fun _ => rfl, ?_, ?_, ?_, ?_, ?_⟩
      · intro hc
        exact Bool.noConfusion hc
      · exact fun e' _ => ⟨rfl, rfl, rfl⟩
      · intro d hd
        exact Option.noConfusion hd
      · exact fun _ => Or.inr (by simp)
      · exact fun _ => rfl
  | next k v =>
    show Inv keys (onNext keys k v s)
    have hkkeys : k ∈ keys := hev
    cases hsub : s.isSubscribed with
    | false =>
      rw [onNext_dead keys k v s hsub]
      exact inv
    | true =>
      have hnotdead : ¬s.isSubscribed = false := fun hc =>
        Bool.noConfusion (hsub.symm.trans hc)
      cases hown : hasOwn s.values k with
      | true =>
        have hkmem : k ∈ valuesKeys s.values := (hasOwn_eq_true_iff _ _).mp hown
        have hvk : valuesKeys (setValue k v s.values) = valuesKeys s.values :=
          valuesKeys_setValue_of_mem k v s.values hkmem
        have hlen : (setValue k v s.values).length = s.values.length :=
          length_setValue_of_mem k v s.values hkmem
        rw [onNext_live_already keys k v s hsub hown]
        by_cases hfull : s.valueCount = keys.length
        · rw [if_pos hfull]
          refine ⟨?_, ?_, ?_, fun hc => absurd hc hnotdead, ?_, ?_, ?_, ?_, ?_⟩
          · rw [hvk]
            exact inv.keys_sub
          · rw [hvk]
            exact inv.keys_nodup
          · show s.valueCount = (setValue k v s.values).length
            rw [hlen]
            exact inv.count_eq
          · intro hc
            exact Bool.noConfusion hc
          · intro e' he'
            exact Option.noConfusion he'
          · intro d hd
            exact ⟨rfl, rfl, (Option.some.inj hd).symm, hfull⟩
          · exact fun _ => Or.inl (by simp)
          · exact fun _ => rfl
        · rw [if_neg hfull]
          refine ⟨?_, ?_, ?_, fun hc => absurd hc hnotdead, inv.loading_shape, ?_, ?_,
            inv.some_status, fun hc => absurd hc hfull⟩
          · rw [hvk]
            exact inv.keys_sub
          · rw [hvk]
            exact inv.keys_nodup
          · show s.valueCount = (setValue k v s.values).length
            rw [hlen]
            exact inv.count_eq
          · intro e' he'
            exact absurd (inv.error_shape e' he').2.2 hnotdead
          · intro d hd
            exact absurd (inv.ready_shape d hd).2.2.2 hfull
      | false =>
        have hnotmem : ¬k ∈ valuesKeys s.values := fun hc =>
          Bool.noConfusion (((hasOwn_eq_true_iff _ _).mpr hc).symm.trans hown)
        have hvk : valuesKeys (setValue k v s.values) = valuesKeys s.values ++ [k] :=
          valuesKeys_setValue_of_not_mem k v s.values hnotmem
        have hlen : (setValue k v s.values).length = s.values.length + 1 :=
          length_setValue_of_not_mem k v s.values hnotmem
        rw [onNext_live_first keys k v s hsub hown]
        have hsub' : ∀ x ∈ valuesKeys (setValue k v s.values), x ∈ keys := by
          rw [hvk]
          intro x hx
          rcases List.mem_append.mp hx with hx | hx
          · exact inv.keys_sub x hx
          · rw [List.mem_singleton.mp hx]
            exact hkkeys
        have hnd' : (valuesKeys (setValue k v s.values)).Nodup := by
          rw [hvk, List.nodup_append]
          exact ⟨inv.keys_nodup, List.nodup_singleton k,
            fun x hx hxk => hnotmem (List.mem_singleton.mp hxk ▸ hx)⟩
        have hcnt' : s.valueCount + 1 = (setValue k v s.values).length := by
          rw [hlen, inv.count_eq]
        by_cases hfull : s.valueCount + 1 = keys.length
        · rw [if_pos hfull]
          refine ⟨hsub', hnd', hcnt', fun hc => absurd hc hnotdead, ?_, ?_, ?_, ?_, ?_⟩
          · intro hc
            exact Bool.noConfusion hc
          · intro e' he'
            exact Option.noConfusion he'
          · intro d hd
            exact ⟨rfl, rfl, (Option.some.inj hd).symm, hfull⟩
          · exact fun _ => Or.inl (by simp)
          · exact fun _ => rfl
        · rw [if_neg hfull]
          refine ⟨hsub', hnd', hcnt', fun hc => absurd hc hnotdead, inv.loading_shape, ?_, ?_,
            inv.some_status, fun hc => absurd hc hfull⟩
          · intro e' he'
            exact absurd (inv.error_shape e' he').2.2 hnotdead
          · intro d hd
            exact absurd
              (full_values_complete (fun a ha => inv.keys_sub a ha) inv.keys_nodup
                (by rw [← inv.count_eq]; exact (inv.ready_shape d hd).2.2.2) hkkeys)
              hnotmem

theorem reach_inv {ε α : Type} {keys : List String} {s : GenState ε α}
    (h : Reach ε α keys s) : Inv keys s := by
  induction h with
  | init => exact inv_init keys
  | tail hr hev ih => exact inv_step ih hev

/-- C1: once a generation's subscriptions have been canceled — the liveness
flag `isSubscribed` cleared by generation replacement, by an error, or by
teardown — every onNext/onError invocation belonging to that generation is a
no-op: the generation state, and in particular the published
{isLoading, data, error}, is left unchanged, even though the events are still
being delivered (the underlying producer has not yet physically detached). -/
theorem canceled_generation_emissions_do_not_mutate_state {ε α : Type}
    (keys : List String) (s : GenState ε α) (h : s.isSubscribed = false)
    (evs : List (Ev ε α)) (hevs : ∀ ev ∈ evs, isEmission ev = true) :
    run keys s evs = s ∧ (run keys s evs).published = s.published := by
  have hrun := run_dead keys s h evs hevs
  exact ⟨hrun, by rw [hrun]⟩

theorem canceled_generation_emissions_do_not_mutate_state_witness :
    run ["a"] (unsubscribeAll (initGenState Nat Nat ["a"])) [Ev.next "a" 5, Ev.error 7] =
      unsubscribeAll (initGenState Nat Nat ["a"]) :=
  (canceled_generation_emissions_do_not_mutate_state ["a"]
    (unsubscribeAll (initGenState Nat Nat ["a"])) rfl [Ev.next "a" 5, Ev.error 7]
    (by decide)).1

/-- C2 as stated is refuted by the code: in a one-key generation whose source
errors before emitting, the published isLoading is false although the key
never received an emission (the claim requires isLoading to stay true until
every key has emitted at least once). -/
theorem loading_until_all_keys_emitted_counterexample :
    Reach Nat Nat ["a"] c2ErrorState ∧
    c2ErrorState.valueCount < (["a"] : List String).length ∧
    c2ErrorState.published.isLoading = false :=
  ⟨Reach.tail Reach.init trivial, by decide, by decide⟩

/-- C2 amended: within one generation with K ≥ 1 keys, as long as no error
has been published, isLoading is true exactly until every key has received at
least one emission; whenever isLoading is true the data is null; and once
every key has emitted, isLoading is false for the remainder of the generation
(including after a later error). -/
theorem loading_until_all_keys_emitted {ε α : Type} (keys : List String)
    (_hne : keys ≠ []) (s : GenState ε α) (h : Reach ε α keys s) :
    (s.published.error = none →
      (s.published.isLoading = true ↔ s.valueCount < keys.length)) ∧
    (s.published.isLoading = true → s.published.data = none) ∧
    (s.valueCount = keys.length → s.published.isLoading = false) := by
  have inv := reach_inv h
  refine ⟨?_, fun hl => (inv.loading_shape hl).1, inv.full_not_loading⟩
  intro herr
  constructor
  · intro hl
    have hneq : s.valueCount ≠ keys.length := fun hc =>
      Bool.noConfusion ((inv.full_not_loading hc).symm.trans hl)
    have hle : s.valueCount ≤ keys.length := by
      rw [inv.count_eq]
      exact values_length_le inv
    omega
  · intro hlt
    cases hl : s.published.isLoading with
    | true => rfl
    | false =>
      rcases inv.some_status hl with hne2 | hne2
      · cases hd : s.published.data with
        | none => exact absurd hd hne2
        | some d =>
          have := (inv.ready_shape d hd).2.2.2
          omega
      · cases he : s.published.error with
        | none => exact absurd he hne2
        | some e => exact Option.noConfusion (herr.symm.trans he)

theorem loading_until_all_keys_emitted_witness :
    (initGenState Nat Nat ["a"]).published.error = none ∧
    ((initGenState Nat Nat ["a"]).published.isLoading = true ↔
      (initGenState Nat Nat ["a"]).valueCount < (["a"] : List String).length) :=
  ⟨rfl, (loading_until_all_keys_emitted ["a"] (by decide)
    (initGenState Nat Nat ["a"]) Reach.init).1 rfl⟩

/-- C3: when any source of a live generation fires its error channel with e,
the engine cancels every live subscription of that generation (the handle
list empties into the canceled list, the liveness flag clears), publishes
exactly {isLoading: false, data: null, error: e}, and accepts no further
emissions from any source of that generation afterward. -/
theorem error_cancels_all_and_publishes_errored {ε α : Type} (keys : List String)
    (s : GenState ε α) (e : ε) (hlive : s.isSubscribed = true) :
    (step keys s (.error e)).published =
      { isLoading := false, data := none, error := some e } ∧
    (step keys s (.error e)).isSubscribed = false ∧
    (step keys s (.error e)).subscriptions = [] ∧
    (step keys s (.error e)).canceled = s.canceled ++ s.subscriptions ∧
    ∀ evs : List (Ev ε α), (∀ ev ∈ evs, isEmission ev = true) →
      run keys (step keys s (.error e)) evs = step keys s (.error e) := by
  have hs : step keys s (Ev.error e) =
      { isSubscribed := false, subscriptions := [],
        canceled := s.canceled ++ s.subscriptions,
        values := s.values, valueCount := s.valueCount,
        published := { isLoading := false, data := none, error := some e } } := by
    show onError e s = _
    exact onError_live e s hlive
  rw [hs]
  exact ⟨rfl, rfl, rfl, rfl, fun evs hevs => run_dead keys _ rfl evs hevs⟩

theorem error_cancels_all_and_publishes_errored_witness :
    (step ["a", "b"] (initGenState Nat Nat ["a", "b"]) (.error 3)).published =
      { isLoading := false, data := none, error := some 3 } :=
  (error_cancels_all_and_publishes_errored ["a", "b"]
    (initGenState Nat Nat ["a", "b"]) 3 rfl).1

/-- C4: every published CombinedState satisfies the tri-state invariant:
exactly one of Loading (isLoading true, data and error null), Ready (data
non-null, isLoading false, error null) and Errored (error non-null, isLoading
false, data null) holds; error non-null forces data null and isLoading false;
and a Ready data snapshot carries exactly one entry per key of the
generation's SourceMap (its key list is duplicate-free and a permutation of
the map's keys). -/
theorem combined_state_tri_state {ε α : Type} (keys : List String)
    (s : GenState ε α) (h : Reach ε α keys s) :
    ((s.published.isLoading = true ∧ s.published.data = none ∧
        s.published.error = none) ∨
      (∃ d, s.published.isLoading = false ∧ s.published.data = some d ∧
        s.published.error = none) ∨
      (∃ e, s.published.isLoading = false ∧ s.published.data = none ∧
        s.published.error = some e)) ∧
    (∀ e, s.published.error = some e →
      s.published.data = none ∧ s.published.isLoading = false) ∧
    (∀ d, s.published.data = some d →
      (valuesKeys d).Nodup ∧ (valuesKeys d).Perm keys) := by
  have inv := reach_inv h
  refine ⟨?_, fun e he => ⟨(inv.error_shape e he).2.1, (inv.error_shape e he).1⟩, ?_⟩
  · cases hl : s.published.isLoading with
    | true => exact Or.inl ⟨rfl, (inv.loading_shape hl).1, (inv.loading_shape hl).2⟩
    | false =>
      cases hd : s.published.data with
      | some d => exact Or.inr (Or.inl ⟨d, rfl, rfl, (inv.ready_shape d hd).2.1⟩)
      | none =>
        cases he : s.published.error with
        | some e => exact Or.inr (Or.inr ⟨e, rfl, rfl, rfl⟩)
        | none =>
          rcases inv.some_status hl with hne2 | hne2
          · exact absurd hd hne2
          · exact absurd he hne2
  · intro d hd
    obtain ⟨_, _, hdv, hcnt⟩ := inv.ready_shape d hd
    subst hdv
    refine ⟨inv.keys_nodup, ?_⟩
    have hsp : List.Subperm (valuesKeys s.values) keys :=
      List.subperm_of_subset inv.keys_nodup fun a ha => inv.keys_sub a ha
    refine hsp.perm_of_length_le ?_
    have hlv : (valuesKeys s.values).length = s.values.length := by simp [valuesKeys]
    rw [hlv, ← inv.count_eq]
    exact le_of_eq hcnt.symm

theorem combined_state_tri_state_witness :
    ((initGenState Nat Nat ["a"]).published.isLoading = true ∧
      (initGenState Nat Nat ["a"]).published.data = none ∧
      (initGenState Nat Nat ["a"]).published.error = none) ∨
    (∃ d, (initGenState Nat Nat ["a"]).published.isLoading = false ∧
      (initGenState Nat Nat ["a"]).published.data = some d ∧
      (initGenState Nat Nat ["a"]).published.error = none) ∨
    (∃ e, (initGenState Nat Nat ["a"]).published.isLoading = false ∧
      (initGenState Nat Nat ["a"]).published.data = none ∧
      (initGenState Nat Nat ["a"]).published.error = some e) :=
  (combined_state_tri_state ["a"] (initGenState Nat Nat ["a"]) Reach.init).1

/-- C8: for an empty SourceMap (zero keys) the generation starts directly in
{isLoading: false, data: {} (empty mapping), error: null}, and the adapter's
subscribe is never called: the subscription list (one entry per key handed to
the adapter) is empty. -/
theorem empty_source_map_ready_without_subscribing (ε α : Type) :
    initGenState ε α [] =
      { isSubscribed := true, subscriptions := [], canceled := [],
        values := [], valueCount := 0,
        published := { isLoading := false, data := some [], error := none } } := rfl

theorem empty_source_map_ready_without_subscribing_witness :
    initGenState Nat Nat [] =
      { isSubscribed := true, subscriptions := [], canceled := [],
        values := [], valueCount := 0,
        published := { isLoading := false, data := some [], error := none } } :=
  empty_source_map_ready_without_subscribing Nat Nat

/-- C9: an emission delivered under key k to a live generation that has
reached Ready republishes a Ready state whose snapshot differs from the
previous one only at k (which takes the emitted value): every other key's
entry is unchanged, isLoading stays false, error stays null, and the
published data is the snapshot of the accumulator at that step. -/
theorem ready_emission_updates_only_that_key {ε α : Type} (keys : List String)
    (s : GenState ε α) (h : Reach ε α keys s) (hlive : s.isSubscribed = true)
    (d : List (String × α)) (hready : s.published.data = some d)
    (k : String) (hk : k ∈ keys) (v : α) :
    ∃ d', (step keys s (.next k v)).published.data = some d' ∧
      List.lookup k d' = some v ∧
      (∀ j, j ≠ k → List.lookup j d' = List.lookup j d) ∧
      (step keys s (.next k v)).published.isLoading = false ∧
      (step keys s (.next k v)).published.error = none ∧
      d' = (step keys s (.next k v)).values := by
  have inv := reach_inv h
  obtain ⟨hl, herr, hdv, hcnt⟩ := inv.ready_shape d hready
  have hkmem : k ∈ valuesKeys s.values :=
    full_values_complete (fun a ha => inv.keys_sub a ha) inv.keys_nodup
      (by rw [← inv.count_eq]; exact hcnt) hk
  have hown : hasOwn s.values k = true := (hasOwn_eq_true_iff _ _).mpr hkmem
  have hstep : step keys s (Ev.next k v) =
      { s with values := setValue k v s.values,
               published := { isLoading := false, data := some (setValue k v s.values),
                              error := none } } := by
    show onNext keys k v s = _
    rw [onNext_live_already keys k v s hlive hown, if_pos hcnt]
  rw [hstep]
  refine ⟨setValue k v s.values, rfl, lookup_setValue_self k v s.values, ?_, rfl, rfl, rfl⟩
  intro j hj
  rw [hdv]
  exact lookup_setValue_ne j k v s.values hj

theorem ready_emission_updates_only_that_key_witness :
    ∃ d', (step ["a"] (step ["a"] (initGenState Nat Nat ["a"]) (.next "a" 0))
        (.next "a" 1)).published.data = some d' ∧
      List.lookup "a" d' = some 1 ∧
      (∀ j, j ≠ "a" → List.lookup j d' = List.lookup j [("a", 0)]) ∧
      (step ["a"] (step ["a"] (initGenState Nat Nat ["a"]) (.next "a" 0))
        (.next "a" 1)).published.isLoading = false ∧
      (step ["a"] (step ["a"] (initGenState Nat Nat ["a"]) (.next "a" 0))
        (.next "a" 1)).published.error = none ∧
      d' = (step ["a"] (step ["a"] (initGenState Nat Nat ["a"]) (.next "a" 0))
        (.next "a" 1)).values :=
  ready_emission_updates_only_that_key ["a"]
    (step ["a"] (initGenState Nat Nat ["a"]) (.next "a" 0))
    (Reach.tail Reach.init (by simp [EvValid]))
    rfl [("a", 0)] rfl "a" (by simp) 1

end WatermelonReact
